import Mathlib

/-!
# Telemetry core of `server.js`

A shallow embedding of the stateful part of `src/server.js`: the pseudonym
resolver `getHackerName`, the `POST /api/webhook` handler with its bounded
de-duplicating buffer, the `GET /api/history` reader and the
`checkVaultBalance` poll cycle, followed by the properties proved about them.

Conventions of the embedding.

* A JavaScript string is the list of its UTF-16 code units.
* A value that arrives as JSON is a `JSVal`.  Numbers are kept through the only
  three things the source observes of them (being zero, being positive, being
  integral), see `JSNum`.
* An exception is an explicit result (`Except`, `Response.threw`): the state
  that a handler leaves behind when it throws half-way is part of the model.
* `totalRawCount` is a `Nat`.  The source keeps it in a Number, which counts
  exactly up to `2 ^ 53`; the model is the counter below that bound.
-/

namespace VaultServer

/-! ## Strings -/

/-- One UTF-16 code unit. -/
abbrev CodeUnit := Fin 65536

/-- A JavaScript string, as the sequence of its UTF-16 code units. -/
abbrev JSString := List CodeUnit

/-- UTF-16 encoding of one Unicode scalar value (a surrogate pair above the BMP). -/
def utf16Char (c : Char) : JSString :=
  if c.toNat < 65536 then [Fin.ofNat c.toNat]
  else [Fin.ofNat (55296 + (c.toNat - 65536) / 1024), Fin.ofNat (56320 + (c.toNat - 65536) % 1024)]

/-- The JavaScript string written by a source literal. -/
def utf16 (s : String) : JSString := s.toList.flatMap utf16Char

/-- `WhiteSpace` and `LineTerminator` code points of ECMAScript, the characters
that `String.prototype.trim` and the numeric string grammars strip. -/
def isStrWhiteSpace (c : CodeUnit) : Bool :=
  let n := c.val
  n == 9 || n == 10 || n == 11 || n == 12 || n == 13 || n == 32 || n == 160 ||
  n == 5760 || (8192 ≤ n && n ≤ 8202) || n == 8232 || n == 8233 || n == 8239 ||
  n == 8287 || n == 12288 || n == 65279

/-- `String.prototype.trim`: white space removed from both ends. -/
def trim (s : JSString) : JSString :=
  ((s.dropWhile isStrWhiteSpace).reverse.dropWhile isStrWhiteSpace).reverse

/-! ## JSON values -/

/-- A Number that came out of `JSON.parse`, through what the source can observe
of it: an integral value, or a finite non-integral value with its sign, or an
infinity with its sign (`-0` is `int 0`). -/
inductive JSNum where
  | int (z : Int)
  | frac (positive : Bool)
  | inf (positive : Bool)
deriving DecidableEq, Repr

/-- A JavaScript value as it reaches the handlers: `undefined` (an absent
property) or a value built by `JSON.parse`. -/
inductive JSVal where
  | undefined
  | null
  | bool (b : Bool)
  | num (n : JSNum)
  | str (s : JSString)
  | arr (items : List JSVal)
  | obj (props : List (JSString × JSVal))

/-- Errors a handler can throw. -/
inductive JSError where
  | typeError
  | syntaxError
  | rangeError
deriving DecidableEq, Repr

/-- `ToBoolean`. -/
def JSVal.truthy : JSVal → Bool
  | .undefined => false
  | .null => false
  | .bool b => b
  | .num (.int z) => z != 0
  | .num _ => true
  | .str s => !s.isEmpty
  | .arr _ => true
  | .obj _ => true

/-- `v === s` for a string `s`: strict equality holds only for an equal string. -/
def JSVal.strictEqStr (v : JSVal) (s : JSString) : Bool :=
  match v with
  | .str t => t == s
  | _ => false

/-- `a || b`. -/
def JSVal.orElse (a b : JSVal) : JSVal := if a.truthy then a else b

/-- Own property `key` of an object built by `JSON.parse` (the last binding of a
repeated key wins), `undefined` when there is none. -/
def lookupProp (props : List (JSString × JSVal)) (key : JSString) : JSVal :=
  match props.reverse.find? (fun p => p.1 == key) with
  | some p => p.2
  | none => .undefined

/-- The `.length` property of a truthy value: the number of code units of a
string, of elements of an array, the own property of an object, `undefined` on
a boolean or a number. -/
def JSVal.length : JSVal → JSVal
  | .str s => .num (.int s.length)
  | .arr items => .num (.int items.length)
  | .obj props => lookupProp props (utf16 "length")
  | _ => .undefined

/-- The `.result` property of a truthy value: only an object can have one. -/
def JSVal.result : JSVal → JSVal
  | .obj props => lookupProp props (utf16 "result")
  | _ => .undefined

/-! ## The host -/

/-- What the process takes from its host: the environment variable behind
`WEBHOOK_TOKEN`, and the two engine conversions that go through `ToPrimitive`
or `StringToNumber`, which the embedding does not spell out.  The source reaches
them only on a `sender_id` that is an object with a non-primitive or string
`length`, and on an RPC `result` that is an array or an object.  The general
theorems below hold for every host. -/
structure Host where
  /-- Value of `process.env.WEBHOOK_TOKEN`, `none` when unset. -/
  WEBHOOK_TOKEN : Option JSString
  /-- Outcome of `0 < v` for a string, array or object `v`; `none` when the
  conversion throws. -/
  zeroLt : JSVal → Option Bool
  /-- Outcome of `BigInt(v)` for an array or object `v`. -/
  toBigInt : JSVal → Except JSError Int

/-- A host with no token configured, whose conversions of compound values throw. -/
def Host.bare : Host := ⟨none, fun _ => none, fun _ => .error .typeError⟩

/-! ## Alias resolver (`server.js` lines 28-41) -/

/-- `ToInt32`: reduction of an integer to the signed 32-bit range. -/
def toInt32 (x : Int) : Int := (x + 2147483648) % 4294967296 - 2147483648

/-- `x << k` on Numbers holding integers. -/
def shl32 (x : Int) (k : Nat) : Int := toInt32 (toInt32 x * 2 ^ (k % 32))

def HACKER_NAMES : List JSString :=
  [utf16 "Shadow_Runner", utf16 "Neon_Ghost", utf16 "Cyber_Phantom", utf16 "Data_Wraith",
   utf16 "Silicon_Ninja", utf16 "Binary_Vandal", utf16 "Neural_Breaker",
   utf16 "Ghost_Protocol", utf16 "Code_Viper", utf16 "Logic_Bomb"]

/-- `HACKER_NAMES[i]`: `undefined` out of range. -/
def hackerNameAt (i : Nat) : JSVal :=
  match HACKER_NAMES[i]? with
  | some name => .str name
  | none => .undefined

/-- One round of the loop body: `hash = ((hash << 5) - hash) + charCodeAt(i); hash |= 0`. -/
def hashStep (hash : Int) (c : CodeUnit) : Int :=
  toInt32 ((shl32 hash 5 - hash) + (c.val : Int))

/-- The loop of `getHackerName` over a string, from `hash = 0`. -/
def hashLoop (s : JSString) : Int := s.foldl hashStep 0

/-- `Math.abs(hash) % HACKER_NAMES.length`. -/
def hashIndex (hash : Int) : Nat := hash.natAbs % HACKER_NAMES.length

/-- The test `0 < originalId.length` that guards the first round of the loop,
on a truthy `originalId` that is not a string; `none` when evaluating it throws. -/
def zeroLtLength (h : Host) (originalId : JSVal) : Option Bool :=
  match originalId.length with
  | .undefined => some false
  | .null => some false
  | .bool b => some b
  | .num (.int z) => some (decide (0 < z))
  | .num (.frac positive) => some positive
  | .num (.inf positive) => some positive
  | v => h.zeroLt v

/-- `getHackerName(originalId)`.  On a string the loop runs over its code units.
On any other truthy value the loop is entered only when `0 < originalId.length`,
and its first round throws, `charCodeAt` not being a function there. -/
def getHackerName (h : Host) (originalId : JSVal) : Except JSError JSVal :=
  if !originalId.truthy then .ok (hackerNameAt 0)
  else
    match originalId with
    | .str s => .ok (hackerNameAt (hashIndex (hashLoop s)))
    | v =>
      match zeroLtLength h v with
      | some false => .ok (hackerNameAt (hashIndex 0))
      | _ => .error .typeError

/-! ## Shared state (`server.js` lines 23-26) -/

/-- One recorded breach attempt, as built at lines 94-98. -/
structure BreachAttempt where
  sender : JSVal
  content : JSString
  timestamp : JSString

inductive VaultStatus where
  | LOADING
  | SECURE
  | BROKEN
  | ERROR
deriving DecidableEq, Repr

/-- The module-level variables.  `seenContent` is the `Set`, kept as the list of
its members in insertion order. -/
structure State where
  breachAttempts : List BreachAttempt
  seenContent : List JSString
  totalRawCount : Nat
  vaultStatus : VaultStatus

/-- The state at start-up. -/
def State.init : State := ⟨[], [], 0, .LOADING⟩

/-- The `content` values of the buffer, newest first. -/
def State.contents (s : State) : List JSString := s.breachAttempts.map (·.content)

/-- `Set.prototype.add`. -/
def setAdd (x : JSString) (set : List JSString) : List JSString :=
  if x ∈ set then set else set ++ [x]

/-- `Set.prototype.delete`. -/
def setDelete (x : JSString) (set : List JSString) : List JSString :=
  set.filter (fun y => y != x)

/-! ## Webhook intake (`server.js` lines 84-106) -/

/-- The body that `express.json()` leaves in `req.body`, a JSON object or array,
through the three properties the handler reads (`undefined` when absent). -/
structure Payload where
  message : JSVal
  sender_name : JSVal
  sender_id : JSVal

/-- One call of `POST /api/webhook`: the `token` query parameter, the body, and
what `new Date().toLocaleTimeString()` returns if the handler gets to read it. -/
structure Request where
  token : JSVal
  body : Payload
  now : JSString

/-- How a call of the handler ends: a response was sent, or an exception left
the handler (Express then answers 500). -/
inductive Response where
  | sent (status : Nat) (text : JSString)
  | threw (e : JSError)

/-- The guard of line 86: `WEBHOOK_TOKEN && token !== WEBHOOK_TOKEN`. -/
def tokenRejected (h : Host) (token : JSVal) : Bool :=
  match h.WEBHOOK_TOKEN with
  | none => false
  | some expected => !expected.isEmpty && !token.strictEqStr expected

/-- The guard of line 89: `payload.message && payload.sender_name !== "OpenFang"`. -/
def accepts (payload : Payload) : Bool :=
  payload.message.truthy && !payload.sender_name.strictEqStr (utf16 "OpenFang")

/-- Lines 99-102: when the buffer has grown past 50, `pop()` the last record and
delete its content from the set. -/
def evict (s : State) : State :=
  if s.breachAttempts.length > 50 then
    match s.breachAttempts.getLast? with
    | some removed =>
      { s with breachAttempts := s.breachAttempts.dropLast,
               seenContent := setDelete removed.content s.seenContent }
    | none => s
  else s

/-- The handler of `POST /api/webhook`: the state it leaves and how it ends.
Statements run in source order, so a throw keeps the mutations made before it. -/
def webhook (h : Host) (req : Request) (s : State) : State × Response :=
  if tokenRejected h req.token then (s, .sent 401 (utf16 "unauthorized"))
  else
    let payload := req.body
    if accepts payload then
      let s1 := { s with totalRawCount := s.totalRawCount + 1 }
      match payload.message with
      | .str message =>
        let cleanContent := trim message
        if cleanContent ∈ s1.seenContent then (s1, .sent 200 (utf16 "ok"))
        else
          let s2 := { s1 with seenContent := setAdd cleanContent s1.seenContent }
          match getHackerName h (payload.sender_id.orElse (.str (utf16 "anonymous"))) with
          | .error e => (s2, .threw e)
          | .ok sender =>
            let s3 := { s2 with breachAttempts :=
              { sender := sender, content := cleanContent, timestamp := req.now }
                :: s2.breachAttempts }
            (evict s3, .sent 200 (utf16 "ok"))
      | _ => (s1, .threw .typeError)
    else (s, .sent 200 (utf16 "ok"))

/-! ## History reader (`server.js` lines 108-115) -/

/-- The JSON answered by `GET /api/history`. -/
structure History where
  count : Nat
  unique_count : Nat
  attempts : List BreachAttempt
  vaultStatus : VaultStatus

def history (s : State) : History :=
  { count := s.totalRawCount, unique_count := s.breachAttempts.length,
    attempts := s.breachAttempts, vaultStatus := s.vaultStatus }

/-! ## Vault monitor (`server.js` lines 21, 44-77) -/

def TARGET_BALANCE : Int := 500000000000000000000

/-- Value of a digit character in radix up to 16. -/
def digitValue (c : CodeUnit) : Option Nat :=
  let n := c.val
  if 48 ≤ n ∧ n ≤ 57 then some (n - 48)
  else if 97 ≤ n ∧ n ≤ 102 then some (n - 87)
  else if 65 ≤ n ∧ n ≤ 70 then some (n - 55)
  else none

/-- One more digit of a numeral in `radix`. -/
def pushDigit (radix : Nat) (acc : Option Nat) (c : CodeUnit) : Option Nat :=
  match acc, digitValue c with
  | some a, some d => if d < radix then some (a * radix + d) else none
  | _, _ => none

/-- Value of a non-empty digit sequence in `radix`, `none` when it is empty or
holds another character. -/
def parseDigits (radix : Nat) (ds : JSString) : Option Nat :=
  if ds.isEmpty then none else ds.foldl (pushDigit radix) (some 0)

/-- `SignedInteger` of the `StringIntegerLiteral` grammar: decimal digits with
an optional sign. -/
def parseSignedDecimal (t : JSString) : Option Int :=
  match t with
  | [] => none
  | c :: ds =>
    if c.val = 43 then (parseDigits 10 ds).map Int.ofNat
    else if c.val = 45 then (parseDigits 10 ds).map (fun n => -Int.ofNat n)
    else (parseDigits 10 t).map Int.ofNat

/-- `StringToBigInt`: white space is stripped; the empty string is zero; then an
unsigned `0x`, `0o` or `0b` literal, or a signed decimal one; `none` stands for
the `SyntaxError` that `BigInt` throws on anything else. -/
def stringToBigInt (s : JSString) : Option Int :=
  match trim s with
  | [] => some 0
  | [c] => parseSignedDecimal [c]
  | c0 :: c1 :: ds =>
    if c0.val = 48 ∧ (c1.val = 120 ∨ c1.val = 88) then (parseDigits 16 ds).map Int.ofNat
    else if c0.val = 48 ∧ (c1.val = 111 ∨ c1.val = 79) then (parseDigits 8 ds).map Int.ofNat
    else if c0.val = 48 ∧ (c1.val = 98 ∨ c1.val = 66) then (parseDigits 2 ds).map Int.ofNat
    else parseSignedDecimal (c0 :: c1 :: ds)

/-- `BigInt(v)`. -/
def toBigInt (h : Host) (v : JSVal) : Except JSError Int :=
  match v with
  | .undefined => .error .typeError
  | .null => .error .typeError
  | .bool b => .ok (if b then 1 else 0)
  | .num (.int z) => .ok z
  | .num _ => .error .rangeError
  | .str s =>
    match stringToBigInt s with
    | some z => .ok z
    | none => .error .syntaxError
  | w => h.toBigInt w

/-- How the `axios.post` of lines 49-57 ends: it throws (transport failure,
timeout, non-2xx status), or it returns a response with this `data`. -/
inductive RpcOutcome where
  | failed
  | replied (data : JSVal)

/-- Lines 59-72, the part of the `try` block after the response has arrived:
the status it assigns, or the exception it throws. -/
def statusOfResponse (h : Host) (data : JSVal) : Except JSError VaultStatus :=
  if data.truthy && data.result.truthy then
    if data.result.strictEqStr (utf16 "0x") then .ok .BROKEN
    else
      match toBigInt h data.result with
      | .ok balance => .ok (if balance = TARGET_BALANCE then .SECURE else .BROKEN)
      | .error e => .error e
  else .ok .ERROR

/-- One cycle of `checkVaultBalance`: the `catch` of lines 73-76 assigns `ERROR`. -/
def checkVaultBalance (h : Host) (outcome : RpcOutcome) (s : State) : State :=
  match outcome with
  | .failed => { s with vaultStatus := .ERROR }
  | .replied data =>
    match statusOfResponse h data with
    | .ok status => { s with vaultStatus := status }
    | .error _ => { s with vaultStatus := .ERROR }

/-! ## Runs -/

/-- What can happen to the shared state: a webhook call, or the completion of a
poll cycle. -/
inductive Event where
  | webhook (req : Request)
  | poll (outcome : RpcOutcome)

/-- The state after one event. -/
def step (h : Host) (s : State) (e : Event) : State :=
  match e with
  | .webhook req => (webhook h req s).1
  | .poll outcome => checkVaultBalance h outcome s

/-- The state after a sequence of events, oldest first. -/
def run (h : Host) (s : State) (events : List Event) : State :=
  events.foldl (step h) s

/-- The states the process can be in: those a finite sequence of events leads to
from start-up. -/
def Reachable (h : Host) (s : State) : Prop :=
  ∃ events : List Event, run h State.init events = s

/-! ## Reference resolver -/

/-- Reduction to the signed 32-bit range, as the specification words it: the
representative of `x` modulo `2 ^ 32` that lies in `[-2 ^ 31, 2 ^ 31)`. -/
def wrap32 (x : Int) : Int :=
  let r := x % 4294967296
  if r < 2147483648 then r else r - 4294967296

/-- The rolling hash of the specification: `h := wrap32 (h * 31 + c)` from `h = 0`
over the code units. -/
def referenceHash (rawId : JSString) : Int :=
  rawId.foldl (fun h c => wrap32 (h * 31 + (c.val : Int))) 0

/-- The resolver of the specification: the first name for an absent or empty
identifier, otherwise the name at `|H| mod 10`. -/
def referenceResolve (rawId : Option JSString) : JSVal :=
  match rawId with
  | none => hackerNameAt 0
  | some [] => hackerNameAt 0
  | some (c :: cs) => hackerNameAt ((referenceHash (c :: cs)).natAbs % 10)

/-! ## Vocabulary of the statements -/

/-- The key under which an accepted payload is de-duplicated: its message,
trimmed (line 91). -/
def Payload.cleanContent (payload : Payload) : JSString :=
  match payload.message with
  | .str message => trim message
  | _ => []

/-- The character of a hexadecimal digit, in lower or in upper case. -/
def hexChar (d : Fin 16) (upper : Bool) : CodeUnit :=
  if d.val < 10 then Fin.ofNat (48 + d.val)
  else if upper then Fin.ofNat (55 + d.val)
  else Fin.ofNat (87 + d.val)

/-- The integer written by a sequence of hexadecimal digits, most significant
first. -/
def hexValue (ds : List (Fin 16 × Bool)) : Nat :=
  ds.foldl (fun acc d => acc * 16 + d.1.val) 0

/-- The hex string `0x` followed by the given digits. -/
def hexString (ds : List (Fin 16 × Bool)) : JSString :=
  utf16 "0x" ++ ds.map (fun d => hexChar d.1 d.2)

/-- The status that one poll cycle writes. -/
def statusAfter (h : Host) (outcome : RpcOutcome) (s : State) : VaultStatus :=
  (checkVaultBalance h outcome s).vaultStatus

/-- What the buffer satisfies in every state the process can reach, whatever the
payloads: distinct contents, every content in the set, at most 50 records, and
no more records than counted arrivals. -/
structure BufferInv (s : State) : Prop where
  nodup : s.contents.Nodup
  seenNodup : s.seenContent.Nodup
  sub : ∀ c ∈ s.contents, c ∈ s.seenContent
  bound : s.breachAttempts.length ≤ 50
  count : s.breachAttempts.length ≤ s.totalRawCount

/-- The set holds nothing but the contents of the buffer. -/
def SeenCovered (s : State) : Prop := ∀ c ∈ s.seenContent, c ∈ s.contents

/-- Whether a value is a string. -/
def JSVal.isString : JSVal → Bool
  | .str _ => true
  | _ => false

/-- Whether the `sender_id` of a payload has the documented shape: absent, or a
string. -/
def Payload.senderIdTyped (payload : Payload) : Bool :=
  match payload.sender_id with
  | .undefined => true
  | .str _ => true
  | _ => false

/-! ## Concrete inputs -/

/-- A request without token whose body is `{"message": text}`. -/
def messageRequest (text : String) : Request :=
  ⟨.undefined, ⟨.str (utf16 text), .undefined, .undefined⟩, utf16 "12:00:00"⟩

/-- A request without token whose body is `{"message": "hi", "sender_id": ["x"]}`. -/
def arraySenderRequest : Request :=
  ⟨.undefined, ⟨.str (utf16 "hi"), .undefined, .arr [.str (utf16 "x")]⟩, utf16 "12:00:00"⟩

/-- A request without token whose body is `{"message": 1}`. -/
def numberMessageRequest : Request :=
  ⟨.undefined, ⟨.num (.int 1), .undefined, .undefined⟩, utf16 "12:00:00"⟩

/-- A request without token whose body is
`{"message": "hi", "sender_name": "OpenFang", "sender_id": "u1"}`. -/
def selfRequest : Request :=
  ⟨.undefined, ⟨.str (utf16 "hi"), .str (utf16 "OpenFang"), .str (utf16 "u1")⟩, utf16 "12:00:00"⟩

/-- The requests without token whose bodies are `{"message": "M1"}`, ...,
`{"message": "M52"}`, in this order. -/
def fiftyTwoRequests : List Request :=
  (List.range 52).map (fun i => messageRequest ("M" ++ toString (i + 1)))

/-- The digits of the 32-byte word that `balanceOf` returns for the target
balance: 46 zeros followed by `1b1ae4d6e2ef500000`. -/
def targetDigits : List (Fin 16 × Bool) :=
  List.replicate 46 (0, false) ++
    [(1, false), (11, false), (1, false), (10, false), (14, false), (4, false), (13, false),
     (6, false), (14, false), (2, false), (14, false), (15, false), (5, false), (0, false),
     (0, false), (0, false), (0, false), (0, false)]

/-- The body `{"jsonrpc": "2.0", "id": 1, "result": result}` of a JSON-RPC reply. -/
def rpcReplyData (result : JSVal) : JSVal :=
  .obj [(utf16 "jsonrpc", .str (utf16 "2.0")), (utf16 "id", .num (.int 1)),
    (utf16 "result", result)]

/-- A JSON-RPC reply `{"jsonrpc": "2.0", "id": 1, "result": result}`. -/
def rpcReply (result : JSVal) : RpcOutcome := .replied (rpcReplyData result)

/-- The body `{"jsonrpc": "2.0", "id": 1, "error": {"code": -32000}}` of a
JSON-RPC error reply, without `result`. -/
def rpcErrorData : JSVal :=
  .obj [(utf16 "jsonrpc", .str (utf16 "2.0")), (utf16 "id", .num (.int 1)),
    (utf16 "error", .obj [(utf16 "code", .num (.int (-32000)))])]

/-- A JSON-RPC error reply. -/
def rpcErrorReply : RpcOutcome := .replied rpcErrorData

/-! # Properties -/

/-! ## Alias resolver: proofs -/

theorem toInt32_eq_wrap32 (x : Int) : toInt32 x = wrap32 x := by
  unfold toInt32 wrap32
  simp only
  split <;> omega

theorem hashStep_eq (hash : Int) (c : CodeUnit) :
    hashStep hash c = wrap32 (hash * 31 + (c.val : Int)) := by
  rw [← toInt32_eq_wrap32]
  unfold hashStep shl32 toInt32
  norm_num
  omega

theorem hashLoop_eq_referenceHash (s : JSString) : hashLoop s = referenceHash s := by
  unfold hashLoop referenceHash
  congr 1
  funext hash c
  exact hashStep_eq hash c

theorem HACKER_NAMES_length : HACKER_NAMES.length = 10 := rfl

theorem hashIndex_lt (hash : Int) : hashIndex hash < HACKER_NAMES.length := by
  unfold hashIndex
  exact Nat.mod_lt _ (by rw [HACKER_NAMES_length]; decide)

/-- C8. For every string `rawId`, `getHackerName` is the reference resolver of
the specification: the first name for an absent or empty identifier, otherwise
the name at `|H| mod 10` where `H` folds `h := wrap32 (h * 31 + c)` over the code
units. The shift form of the source equals `h * 31 + c` wrapped to 32 bits at
every step, the index is below 10 and always selects a name of the set, and the
hash `-2 ^ 31` selects index 8. -/
theorem getHackerName_refines_reference (h : Host) (rawId : JSString) :
    getHackerName h (.str rawId) = .ok (referenceResolve (some rawId))
    ∧ getHackerName h .undefined = .ok (referenceResolve none)
    ∧ referenceResolve (some []) = .str (utf16 "Shadow_Runner")
    ∧ referenceResolve none = .str (utf16 "Shadow_Runner")
    ∧ (∀ (hash : Int) (c : CodeUnit), hashStep hash c = wrap32 (hash * 31 + (c.val : Int)))
    ∧ hashIndex (hashLoop rawId) < 10
    ∧ (∃ name ∈ HACKER_NAMES, getHackerName h (.str rawId) = .ok (.str name))
    ∧ hashIndex (-2147483648) = 8 := by
  have hidx : hashIndex (hashLoop rawId) < HACKER_NAMES.length := hashIndex_lt _
  refine ⟨?_, rfl, rfl, rfl, hashStep_eq, hidx, ?_, by decide⟩
  · cases rawId with
    | nil => rfl
    | cons c cs =>
      simp only [getHackerName, JSVal.truthy, List.isEmpty_cons, Bool.not_false, Bool.not_true,
        referenceResolve, hashIndex, hashLoop_eq_referenceHash, HACKER_NAMES_length]
      rfl
  · cases rawId with
    | nil => exact ⟨utf16 "Shadow_Runner", by simp [HACKER_NAMES], rfl⟩
    | cons c cs =>
      obtain ⟨name, hname⟩ : ∃ name, HACKER_NAMES[hashIndex (hashLoop (c :: cs))]? = some name :=
        ⟨_, List.getElem?_eq_getElem hidx⟩
      refine ⟨name, List.getElem?_mem hname, ?_⟩
      simp [getHackerName, JSVal.truthy, hackerNameAt, hname]


/-! ## Buffer: invariants -/

theorem contents_cons (r : BreachAttempt) (rs : List BreachAttempt) (seen : List JSString)
    (n : Nat) (v : VaultStatus) :
    (State.mk (r :: rs) seen n v).contents = r.content :: (State.mk rs seen n v).contents := rfl

theorem mem_setDelete {x c : JSString} {set : List JSString} :
    c ∈ setDelete x set ↔ c ∈ set ∧ c ≠ x := by
  simp [setDelete]

theorem mem_setAdd {x c : JSString} {set : List JSString} :
    c ∈ setAdd x set ↔ c ∈ set ∨ c = x := by
  unfold setAdd
  split
  · constructor
    · exact Or.inl
    · rintro (hc | rfl) <;> assumption
  · simp

theorem nodup_setAdd {x : JSString} {set : List JSString} (hs : set.Nodup) :
    (setAdd x set).Nodup := by
  unfold setAdd
  split
  · exact hs
  · rename_i hx
    exact List.Nodup.append hs (List.nodup_singleton x) (by simpa using hx)

theorem evict_of_le (t : State) (hlen : t.breachAttempts.length ≤ 50) : evict t = t := by
  unfold evict
  rw [if_neg (by omega)]

/-- The eviction step, when it fires: the buffer was `front ++ [removed]`. -/
theorem evict_of_gt (t : State) (hlen : t.breachAttempts.length > 50) :
    ∃ removed, t.breachAttempts = t.breachAttempts.dropLast ++ [removed]
      ∧ evict t = { t with breachAttempts := t.breachAttempts.dropLast,
                           seenContent := setDelete removed.content t.seenContent } := by
  unfold evict
  rw [if_pos hlen]
  cases hlast : t.breachAttempts.getLast? with
  | none =>
    rw [List.getLast?_eq_none_iff] at hlast
    rw [hlast] at hlen
    simp at hlen
  | some removed =>
    exact ⟨removed, (List.dropLast_append_getLast? removed hlast).symm, rfl⟩

theorem bufferInv_evict {t : State} (hnodup : t.contents.Nodup) (hseen : t.seenContent.Nodup)
    (hsub : ∀ c ∈ t.contents, c ∈ t.seenContent) (hlen : t.breachAttempts.length ≤ 51)
    (hcount : t.breachAttempts.length ≤ t.totalRawCount) : BufferInv (evict t) := by
  by_cases hgt : t.breachAttempts.length > 50
  · obtain ⟨removed, hsplit, hev⟩ := evict_of_gt t hgt
    have hc : t.contents = (t.breachAttempts.dropLast.map (·.content)) ++ [removed.content] := by
      unfold State.contents
      conv_lhs => rw [hsplit]
      simp
    rw [hc] at hnodup hsub
    have hnd := List.nodup_append.mp hnodup
    have hlen2 : t.breachAttempts.dropLast.length = t.breachAttempts.length - 1 := by simp
    rw [hev]
    refine ⟨hnd.1, hseen.filter _, ?_, ?_, ?_⟩
    · intro c hcmem
      refine mem_setDelete.mpr ⟨hsub c (List.mem_append_left _ hcmem), ?_⟩
      rintro rfl
      exact hnd.2.2 hcmem (List.mem_singleton_self _)
    · show t.breachAttempts.dropLast.length ≤ 50
      omega
    · show t.breachAttempts.dropLast.length ≤ t.totalRawCount
      omega
  · rw [evict_of_le t (by omega)]
    exact ⟨hnodup, hseen, hsub, by omega, hcount⟩

theorem seenCovered_evict {t : State} (hcov : SeenCovered t) : SeenCovered (evict t) := by
  by_cases hgt : t.breachAttempts.length > 50
  · obtain ⟨removed, hsplit, hev⟩ := evict_of_gt t hgt
    have hc : t.contents = (t.breachAttempts.dropLast.map (·.content)) ++ [removed.content] := by
      unfold State.contents
      conv_lhs => rw [hsplit]
      simp
    rw [hev]
    intro c hcmem
    obtain ⟨hin, hne⟩ := mem_setDelete.mp hcmem
    have := hcov c hin
    rw [hc] at this
    rcases List.mem_append.mp this with hfront | hlast
    · exact hfront
    · exact absurd (List.mem_singleton.mp hlast) hne
  · rw [evict_of_le t (by omega)]
    exact hcov


/-! ## Webhook intake: the paths through the handler -/

section Paths

variable (h : Host) (req : Request) (s : State)

theorem webhook_rejected (hrej : tokenRejected h req.token = true) :
    webhook h req s = (s, .sent 401 (utf16 "unauthorized")) := by
  simp [webhook, hrej]

theorem webhook_ignored (hacc : accepts req.body = false) :
    (webhook h req s).1 = s := by
  unfold webhook
  split
  · rfl
  · simp [hacc]

theorem webhook_ignored_response (hauth : tokenRejected h req.token = false)
    (hacc : accepts req.body = false) :
    webhook h req s = (s, .sent 200 (utf16 "ok")) := by
  simp [webhook, hauth, hacc]

theorem webhook_malformed (hauth : tokenRejected h req.token = false)
    (hacc : accepts req.body = true) (hmsg : ∀ m, req.body.message ≠ .str m) :
    webhook h req s = ({ s with totalRawCount := s.totalRawCount + 1 }, .threw .typeError) := by
  unfold webhook
  simp only [hauth, hacc, Bool.false_eq_true, if_false, if_true]

theorem webhook_duplicate (hauth : tokenRejected h req.token = false)
    (hacc : accepts req.body = true) {m : JSString} (hmsg : req.body.message = .str m)
    (hdup : trim m ∈ s.seenContent) :
    webhook h req s
      = ({ s with totalRawCount := s.totalRawCount + 1 }, .sent 200 (utf16 "ok")) := by
  unfold webhook
  simp only [hauth, hacc, Bool.false_eq_true, if_false, if_true, hmsg, hdup]

theorem webhook_throw (hauth : tokenRejected h req.token = false)
    (hacc : accepts req.body = true) {m : JSString} (hmsg : req.body.message = .str m)
    (hnew : trim m ∉ s.seenContent) {e : JSError}
    (herr : getHackerName h (req.body.sender_id.orElse (.str (utf16 "anonymous"))) = .error e) :
    webhook h req s
      = (⟨s.breachAttempts, setAdd (trim m) s.seenContent, s.totalRawCount + 1, s.vaultStatus⟩,
          .threw e) := by
  unfold webhook
  simp only [hauth, hacc, Bool.false_eq_true, if_false, if_true, hmsg, hnew, herr]

theorem webhook_insert (hauth : tokenRejected h req.token = false)
    (hacc : accepts req.body = true) {m : JSString} (hmsg : req.body.message = .str m)
    (hnew : trim m ∉ s.seenContent) {sender : JSVal}
    (hok : getHackerName h (req.body.sender_id.orElse (.str (utf16 "anonymous"))) = .ok sender) :
    webhook h req s
      = (evict ⟨⟨sender, trim m, req.now⟩ :: s.breachAttempts, setAdd (trim m) s.seenContent,
            s.totalRawCount + 1, s.vaultStatus⟩,
          .sent 200 (utf16 "ok")) := by
  unfold webhook
  simp only [hauth, hacc, Bool.false_eq_true, if_false, if_true, hmsg, hnew, hok]

end Paths


/-! ## Buffer: the invariant along every run -/

theorem bufferInv_init : BufferInv State.init :=
  ⟨List.nodup_nil, List.nodup_nil, by simp [State.contents, State.init], by simp [State.init],
    by simp [State.init]⟩

theorem bufferInv_counted {s : State} (inv : BufferInv s) :
    BufferInv { s with totalRawCount := s.totalRawCount + 1 } :=
  ⟨inv.nodup, inv.seenNodup, inv.sub, inv.bound, Nat.le_succ_of_le inv.count⟩

/-- The state in which a throw of the resolver leaves the handler. -/
theorem bufferInv_added {s : State} (inv : BufferInv s) (c : JSString) :
    BufferInv ⟨s.breachAttempts, setAdd c s.seenContent, s.totalRawCount + 1, s.vaultStatus⟩ :=
  ⟨inv.nodup, nodup_setAdd inv.seenNodup,
    fun x hx => mem_setAdd.mpr (Or.inl (inv.sub x hx)), inv.bound, Nat.le_succ_of_le inv.count⟩

/-- The state after a new record has been put in front and the buffer trimmed. -/
theorem bufferInv_inserted {s : State} (inv : BufferInv s) (r : BreachAttempt)
    (hnew : r.content ∉ s.seenContent) :
    BufferInv (evict ⟨r :: s.breachAttempts, setAdd r.content s.seenContent,
      s.totalRawCount + 1, s.vaultStatus⟩) := by
  apply bufferInv_evict
  · rw [contents_cons]
    exact List.nodup_cons.mpr ⟨fun hmem => hnew (inv.sub _ hmem), inv.nodup⟩
  · exact nodup_setAdd inv.seenNodup
  · intro c hc
    rw [contents_cons] at hc
    rcases List.mem_cons.mp hc with rfl | hc
    · exact mem_setAdd.mpr (Or.inr rfl)
    · exact mem_setAdd.mpr (Or.inl (inv.sub c hc))
  · have := inv.bound
    simp only [List.length_cons]
    omega
  · have := inv.count
    simp only [List.length_cons]
    omega

theorem bufferInv_webhook {s : State} (inv : BufferInv s) (h : Host) (req : Request) :
    BufferInv (webhook h req s).1 := by
  by_cases hrej : tokenRejected h req.token = true
  · rw [webhook_rejected h req s hrej]; exact inv
  have hauth : tokenRejected h req.token = false := by simpa using hrej
  by_cases hacc : accepts req.body = true
  swap
  · rw [webhook_ignored h req s (by simpa using hacc)]; exact inv
  by_cases hstr : ∃ m, req.body.message = .str m
  swap
  · rw [webhook_malformed h req s hauth hacc (fun m hm => hstr ⟨m, hm⟩)]
    exact bufferInv_counted inv
  obtain ⟨m, hm⟩ := hstr
  by_cases hdup : trim m ∈ s.seenContent
  · rw [webhook_duplicate h req s hauth hacc hm hdup]
    exact bufferInv_counted inv
  cases hres : getHackerName h (req.body.sender_id.orElse (.str (utf16 "anonymous"))) with
  | error e =>
    rw [webhook_throw h req s hauth hacc hm hdup hres]
    exact bufferInv_added inv _
  | ok sender =>
    rw [webhook_insert h req s hauth hacc hm hdup hres]
    exact bufferInv_inserted inv ⟨sender, trim m, req.now⟩ hdup

theorem checkVaultBalance_buffer (h : Host) (outcome : RpcOutcome) (s : State) :
    (checkVaultBalance h outcome s).breachAttempts = s.breachAttempts
    ∧ (checkVaultBalance h outcome s).seenContent = s.seenContent
    ∧ (checkVaultBalance h outcome s).totalRawCount = s.totalRawCount := by
  cases outcome with
  | failed => exact ⟨rfl, rfl, rfl⟩
  | replied data =>
    cases hst : statusOfResponse h data <;> simp [checkVaultBalance, hst]

theorem bufferInv_step {s : State} (inv : BufferInv s) (h : Host) (e : Event) :
    BufferInv (step h s e) := by
  cases e with
  | webhook req => exact bufferInv_webhook inv h req
  | poll outcome =>
    obtain ⟨h1, h2, h3⟩ := checkVaultBalance_buffer h outcome s
    have hc : (checkVaultBalance h outcome s).contents = s.contents := by
      unfold State.contents; rw [h1]
    refine ⟨?_, ?_, ?_, ?_, ?_⟩
    · show (checkVaultBalance h outcome s).contents.Nodup
      rw [hc]; exact inv.nodup
    · show (checkVaultBalance h outcome s).seenContent.Nodup
      rw [h2]; exact inv.seenNodup
    · show ∀ c ∈ (checkVaultBalance h outcome s).contents, c ∈ (checkVaultBalance h outcome s).seenContent
      rw [hc, h2]; exact inv.sub
    · show (checkVaultBalance h outcome s).breachAttempts.length ≤ 50
      rw [h1]; exact inv.bound
    · show (checkVaultBalance h outcome s).breachAttempts.length ≤ (checkVaultBalance h outcome s).totalRawCount
      rw [h1, h3]; exact inv.count

theorem bufferInv_run {s : State} (inv : BufferInv s) (h : Host) (events : List Event) :
    BufferInv (run h s events) := by
  induction events generalizing s with
  | nil => exact inv
  | cons e es ih => exact ih (bufferInv_step inv h e)

theorem bufferInv_of_reachable {h : Host} {s : State} (hs : Reachable h s) : BufferInv s := by
  obtain ⟨events, rfl⟩ := hs
  exact bufferInv_run bufferInv_init h events

/-- C3. In every state reached from start-up by a finite sequence of events
(webhook calls of any kind, accepted or rejected, duplicate or new, malformed or
not, interleaved with poll cycles), the buffer holds at most 50 records and
`totalRawCount` is at least the number of records. -/
theorem buffer_bounded (h : Host) (events : List Event) :
    (run h State.init events).breachAttempts.length ≤ 50
    ∧ (run h State.init events).totalRawCount ≥ (run h State.init events).breachAttempts.length :=
  ⟨(bufferInv_run bufferInv_init h events).bound, (bufferInv_run bufferInv_init h events).count⟩


/-! ## Buffer: the set against the records -/

/-- On a `sender_id` that is absent or a string the resolver returns. -/
theorem getHackerName_senderId_ok (h : Host) {payload : Payload}
    (hid : payload.senderIdTyped = true) :
    ∃ sender, getHackerName h (payload.sender_id.orElse (.str (utf16 "anonymous"))) = .ok sender := by
  have hstr : ∃ sid, payload.sender_id.orElse (.str (utf16 "anonymous")) = .str sid := by
    unfold Payload.senderIdTyped at hid
    cases hsid : payload.sender_id with
    | undefined => exact ⟨utf16 "anonymous", rfl⟩
    | str sid =>
      unfold JSVal.orElse
      split
      · exact ⟨sid, rfl⟩
      · exact ⟨utf16 "anonymous", rfl⟩
    | _ => rw [hsid] at hid; exact absurd hid Bool.false_ne_true
  obtain ⟨sid, hsid⟩ := hstr
  rw [hsid]
  unfold getHackerName
  split
  · exact ⟨_, rfl⟩
  · exact ⟨_, rfl⟩

theorem seenCovered_inserted {s : State} (cov : SeenCovered s) (r : BreachAttempt) :
    SeenCovered (evict ⟨r :: s.breachAttempts, setAdd r.content s.seenContent,
      s.totalRawCount + 1, s.vaultStatus⟩) := by
  apply seenCovered_evict
  intro c hc
  rw [contents_cons]
  rcases mem_setAdd.mp hc with hc | rfl
  · exact List.mem_cons_of_mem _ (cov c hc)
  · exact List.mem_cons_self _ _

theorem seenCovered_webhook {s : State} (cov : SeenCovered s) (h : Host) (req : Request)
    (hid : req.body.senderIdTyped = true) : SeenCovered (webhook h req s).1 := by
  by_cases hrej : tokenRejected h req.token = true
  · rw [webhook_rejected h req s hrej]; exact cov
  have hauth : tokenRejected h req.token = false := by simpa using hrej
  by_cases hacc : accepts req.body = true
  swap
  · rw [webhook_ignored h req s (by simpa using hacc)]; exact cov
  by_cases hstr : ∃ m, req.body.message = .str m
  swap
  · rw [webhook_malformed h req s hauth hacc (fun m hm => hstr ⟨m, hm⟩)]
    exact cov
  obtain ⟨m, hm⟩ := hstr
  by_cases hdup : trim m ∈ s.seenContent
  · rw [webhook_duplicate h req s hauth hacc hm hdup]
    exact cov
  obtain ⟨sender, hok⟩ := getHackerName_senderId_ok h hid
  rw [webhook_insert h req s hauth hacc hm hdup hok]
  exact seenCovered_inserted cov ⟨sender, trim m, req.now⟩

/-- Along a run whose webhook payloads all have a `sender_id` that is absent or a
string, the set and the buffer stay in one-to-one correspondence. -/
theorem seenCovered_run (h : Host) (events : List Event) {s : State} (cov : SeenCovered s)
    (hid : ∀ req, Event.webhook req ∈ events → req.body.senderIdTyped = true) :
    SeenCovered (run h s events) := by
  induction events generalizing s with
  | nil => exact cov
  | cons e es ih =>
    refine ih ?_ (fun req hreq => hid req (List.mem_cons_of_mem _ hreq))
    cases e with
    | webhook req => exact seenCovered_webhook cov h req (hid req (List.mem_cons_self _ _))
    | poll outcome =>
      obtain ⟨h1, h2, -⟩ := checkVaultBalance_buffer h outcome s
      intro c hc
      show c ∈ (checkVaultBalance h outcome s).contents
      unfold State.contents
      rw [h1]
      rw [show (step h s (Event.poll outcome)).seenContent = s.seenContent from h2] at hc
      exact cov c hc

/-- C1, the code at the failing input. After the single webhook call with body
`{"message": "hi", "sender_id": ["x"]}` from start-up, the handler has thrown a
`TypeError` out of `getHackerName`, `seenContent` holds `"hi"` and `breachAttempts`
is empty: a member of the set is the content of no record. -/
theorem seenContent_ahead_of_buffer :
    (webhook Host.bare arraySenderRequest State.init).2 = .threw .typeError
    ∧ (run Host.bare State.init [.webhook arraySenderRequest]).seenContent = [utf16 "hi"]
    ∧ (run Host.bare State.init [.webhook arraySenderRequest]).breachAttempts = []
    ∧ ¬ (∀ c, c ∈ (run Host.bare State.init [.webhook arraySenderRequest]).seenContent
          ↔ c ∈ (run Host.bare State.init [.webhook arraySenderRequest]).contents) := by
  have h2 : (run Host.bare State.init [.webhook arraySenderRequest]).seenContent = [utf16 "hi"] := by
    decide!
  have h3 : (run Host.bare State.init [.webhook arraySenderRequest]).breachAttempts = [] := rfl
  refine ⟨rfl, h2, h3, ?_⟩
  intro hall
  have hmem := (hall (utf16 "hi")).mp (by rw [h2]; exact List.mem_singleton_self _)
  unfold State.contents at hmem
  rw [h3] at hmem
  simp at hmem

/-- C4. In every reachable state, an accepted payload (message a non-empty
string, sender name not the reserved one, token gate passed) whose trimmed
message is the content of a record of the buffer leaves `breachAttempts` and
`seenContent` as they were, every record included, adds exactly 1 to
`totalRawCount`, and is answered with 200 "ok". -/
theorem duplicate_only_counts (h : Host) (s : State) (req : Request) (m : JSString)
    (hs : Reachable h s) (hauth : tokenRejected h req.token = false)
    (hmsg : req.body.message = .str m) (hne : m ≠ [])
    (hname : req.body.sender_name.strictEqStr (utf16 "OpenFang") = false)
    (hdup : trim m ∈ s.contents) :
    (webhook h req s).1.breachAttempts = s.breachAttempts
    ∧ (webhook h req s).1.seenContent = s.seenContent
    ∧ (webhook h req s).1.totalRawCount = s.totalRawCount + 1
    ∧ (webhook h req s).2 = .sent 200 (utf16 "ok") := by
  have hacc : accepts req.body = true := by
    unfold accepts
    rw [hmsg, hname]
    cases m with
    | nil => exact absurd rfl hne
    | cons c cs => rfl
  rw [webhook_duplicate h req s hauth hacc hmsg ((bufferInv_of_reachable hs).sub _ hdup)]
  exact ⟨rfl, rfl, rfl, rfl⟩

/-- C4, at a concrete input: `M1` is ingested from start-up, then `M1` again. The
second call changes neither the buffer nor the set; the buffer has 1 entry and
`totalRawCount` is 2. -/
theorem duplicate_only_counts_witness :
    ((webhook Host.bare (messageRequest "M1")
        (run Host.bare State.init [.webhook (messageRequest "M1")])).1.breachAttempts
      = (run Host.bare State.init [.webhook (messageRequest "M1")]).breachAttempts
    ∧ (webhook Host.bare (messageRequest "M1")
        (run Host.bare State.init [.webhook (messageRequest "M1")])).1.seenContent
      = (run Host.bare State.init [.webhook (messageRequest "M1")]).seenContent
    ∧ (webhook Host.bare (messageRequest "M1")
        (run Host.bare State.init [.webhook (messageRequest "M1")])).1.totalRawCount
      = (run Host.bare State.init [.webhook (messageRequest "M1")]).totalRawCount + 1
    ∧ (webhook Host.bare (messageRequest "M1")
        (run Host.bare State.init [.webhook (messageRequest "M1")])).2 = .sent 200 (utf16 "ok"))
    ∧ (run Host.bare State.init
        [.webhook (messageRequest "M1"), .webhook (messageRequest "M1")]).breachAttempts.length = 1
    ∧ (run Host.bare State.init
        [.webhook (messageRequest "M1"), .webhook (messageRequest "M1")]).totalRawCount = 2 :=
  ⟨duplicate_only_counts Host.bare (run Host.bare State.init [.webhook (messageRequest "M1")])
      (messageRequest "M1") (utf16 "M1") ⟨[.webhook (messageRequest "M1")], rfl⟩ rfl rfl
      (by decide) rfl (by decide!),
    by decide!, by decide!⟩


/-! ## Webhook intake: rejected and malformed payloads -/

/-- C5. Whatever the state (reachable or not), a payload whose `message` is absent or
whose `sender_name` is the reserved name `"OpenFang"`, whatever its other
fields and whatever the token, leaves `breachAttempts`, `seenContent` and
`totalRawCount` unchanged (the whole state is unchanged), and the handler
answers without throwing. -/
theorem rejected_payload_is_noop (h : Host) (s : State) (req : Request)
    (hrej : req.body.message = .undefined ∨ req.body.sender_name = .str (utf16 "OpenFang")) :
    (webhook h req s).1 = s
    ∧ ∃ status text, (webhook h req s).2 = .sent status text := by
  have hacc : accepts req.body = false := by
    unfold accepts
    rcases hrej with hm | hn
    · rw [hm]; rfl
    · rw [hn]; simp [JSVal.strictEqStr]
  refine ⟨webhook_ignored h req s hacc, ?_⟩
  by_cases hauth : tokenRejected h req.token = true
  · exact ⟨401, utf16 "unauthorized", by rw [webhook_rejected h req s hauth]⟩
  · exact ⟨200, utf16 "ok", by rw [webhook_ignored_response h req s (by simpa using hauth) hacc]⟩

/-- C5, at a concrete input: the body
`{"message": "hi", "sender_name": "OpenFang", "sender_id": "u1"}` at start-up. -/
theorem rejected_payload_is_noop_witness :
    (webhook Host.bare selfRequest State.init).1 = State.init
    ∧ ∃ status text, (webhook Host.bare selfRequest State.init).2 = .sent status text :=
  rejected_payload_is_noop Host.bare State.init selfRequest (Or.inr rfl)

/-- C10, the code at the failing input. The webhook call with body `{"message": 1}`
at start-up passes the guard of line 89, increments `totalRawCount` from 0 to 1,
and then throws a `TypeError` at `payload.message.trim()`: no 200 "ok" is sent. -/
theorem number_message_throws :
    State.init.totalRawCount = 0
    ∧ (webhook Host.bare numberMessageRequest State.init).1.totalRawCount = 1
    ∧ (webhook Host.bare numberMessageRequest State.init).2 = .threw .typeError
    ∧ (webhook Host.bare numberMessageRequest State.init).2 ≠ .sent 200 (utf16 "ok") := by
  refine ⟨rfl, rfl, rfl, ?_⟩
  rw [show (webhook Host.bare numberMessageRequest State.init).2 = .threw .typeError from rfl]
  exact fun hc => Response.noConfusion hc

/-! ## Webhook intake: the sender of a new record -/

theorem evict_head (t : State) (r : BreachAttempt) (rs : List BreachAttempt)
    (ht : t.breachAttempts = r :: rs) : (evict t).breachAttempts.head? = some r := by
  by_cases hgt : t.breachAttempts.length > 50
  · obtain ⟨removed, -, hev⟩ := evict_of_gt t hgt
    rw [hev]
    show t.breachAttempts.dropLast.head? = some r
    rw [List.head?_dropLast, if_pos (by omega), ht]
    rfl
  · rw [evict_of_le t (by omega), ht]
    rfl

theorem anonymous_index : hashIndex (hashLoop (utf16 "anonymous")) = 5 := by decide!

theorem getHackerName_anonymous (h : Host) :
    getHackerName h (.str (utf16 "anonymous")) = .ok (.str (utf16 "Binary_Vandal")) := by
  have hne : (JSVal.str (utf16 "anonymous")).truthy = true := by decide!
  unfold getHackerName
  simp only [hne, Bool.not_true, Bool.false_eq_true, if_false, anonymous_index]
  rfl

/-- C9. For an accepted payload (token gate passed, message a non-empty string,
sender name not the reserved one) whose trimmed message is new, that is, not a
member of `seenContent`: when `sender_id` is absent or the empty string, the
record put at the front of `breachAttempts` has the sender
`getHackerName("anonymous")`, which is `Binary_Vandal`, a name of the set other
than the default `HACKER_NAMES[0]`; when `sender_id` is a non-empty string, the
sender is `getHackerName(sender_id)`. -/
theorem sender_of_new_record (h : Host) (s : State) (req : Request) (m : JSString)
    (hauth : tokenRejected h req.token = false)
    (hmsg : req.body.message = .str m) (hne : m ≠ [])
    (hname : req.body.sender_name.strictEqStr (utf16 "OpenFang") = false)
    (hnew : trim m ∉ s.seenContent) :
    ((req.body.sender_id = .undefined ∨ req.body.sender_id = .str []) →
      (webhook h req s).1.breachAttempts.head?
          = some ⟨.str (utf16 "Binary_Vandal"), trim m, req.now⟩
        ∧ getHackerName h (.str (utf16 "anonymous")) = .ok (.str (utf16 "Binary_Vandal"))
        ∧ utf16 "Binary_Vandal" ∈ HACKER_NAMES
        ∧ JSVal.str (utf16 "Binary_Vandal") ≠ hackerNameAt 0)
    ∧ (∀ sid, sid ≠ [] → req.body.sender_id = .str sid →
        ∃ sender, getHackerName h (.str sid) = .ok sender
          ∧ (webhook h req s).1.breachAttempts.head? = some ⟨sender, trim m, req.now⟩) := by
  have hacc : accepts req.body = true := by
    unfold accepts
    rw [hmsg, hname]
    cases m with
    | nil => exact absurd rfl hne
    | cons c cs => rfl
  constructor
  · intro hid
    have hor : req.body.sender_id.orElse (.str (utf16 "anonymous")) = .str (utf16 "anonymous") := by
      rcases hid with hu | hu <;> rw [hu] <;> rfl
    have hok := getHackerName_anonymous h
    refine ⟨?_, hok, by decide!, ?_⟩
    · rw [webhook_insert h req s hauth hacc hmsg hnew (by rw [hor]; exact hok)]
      exact evict_head _ _ _ rfl
    · intro hc
      have : utf16 "Binary_Vandal" = utf16 "Shadow_Runner" := JSVal.str.inj hc
      exact absurd this (by decide!)
  · intro sid hsid hid
    have hor : req.body.sender_id.orElse (.str (utf16 "anonymous")) = .str sid := by
      rw [hid]
      cases sid with
      | nil => exact absurd rfl hsid
      | cons c cs => rfl
    obtain ⟨sender, hok⟩ : ∃ sender, getHackerName h (.str sid) = .ok sender := by
      cases sid with
      | nil => exact absurd rfl hsid
      | cons c cs => exact ⟨_, rfl⟩
    refine ⟨sender, hok, ?_⟩
    rw [webhook_insert h req s hauth hacc hmsg hnew (by rw [hor]; exact hok)]
    exact evict_head _ _ _ rfl

/-- C9, at a concrete input: the body `{"message": "M1"}`, without `sender_id`, at
start-up. -/
theorem sender_of_new_record_witness :
    (webhook Host.bare (messageRequest "M1") State.init).1.breachAttempts.head?
      = some ⟨.str (utf16 "Binary_Vandal"), utf16 "M1", utf16 "12:00:00"⟩ :=
  ((sender_of_new_record Host.bare State.init (messageRequest "M1") (utf16 "M1") rfl rfl
    (by decide) rfl (by decide!)).1 (Or.inl rfl)).1


/-! ## Buffer: the rolling window -/

theorem take_append_take {α : Type} (n : Nat) (a b : List α) :
    (a ++ b.take n).take n = (a ++ b).take n := by
  rw [List.take_append_eq_append_take, List.take_append_eq_append_take, List.take_take,
    Nat.min_eq_left (Nat.sub_le _ _)]

theorem evict_contents (t : State) (hlen : t.breachAttempts.length ≤ 51) :
    (evict t).contents = t.contents.take 50 := by
  by_cases hgt : t.breachAttempts.length > 50
  · obtain ⟨removed, -, hev⟩ := evict_of_gt t hgt
    rw [hev]
    show t.breachAttempts.dropLast.map (·.content) = (t.breachAttempts.map (·.content)).take 50
    rw [List.dropLast_eq_take, List.map_take]
    congr 1
    omega
  · rw [evict_of_le t (by omega)]
    exact (List.take_of_length_le (by simp [State.contents]; omega)).symm

theorem evict_length (t : State) (hlen : t.breachAttempts.length ≤ 51) :
    (evict t).breachAttempts.length ≤ 50 := by
  by_cases hgt : t.breachAttempts.length > 50
  · obtain ⟨removed, -, hev⟩ := evict_of_gt t hgt
    rw [hev]
    show t.breachAttempts.dropLast.length ≤ 50
    simp
    omega
  · rw [evict_of_le t (by omega)]
    omega

theorem evict_seen (t : State) {c : JSString} (hc : c ∈ (evict t).seenContent) :
    c ∈ t.seenContent := by
  by_cases hgt : t.breachAttempts.length > 50
  · obtain ⟨removed, -, hev⟩ := evict_of_gt t hgt
    rw [hev] at hc
    exact (mem_setDelete.mp hc).1
  · rwa [evict_of_le t (by omega)] at hc

theorem evict_totalRawCount (t : State) : (evict t).totalRawCount = t.totalRawCount := by
  unfold evict
  split
  · split <;> rfl
  · rfl

/-- A string message that passes the guard of line 89 is its own clean content,
trimmed. -/
theorem cleanContent_of_isString {payload : Payload} (hs : payload.message.isString = true) :
    ∃ m, payload.message = .str m ∧ payload.cleanContent = trim m := by
  unfold Payload.cleanContent
  cases hm : payload.message with
  | str m => exact ⟨m, rfl, rfl⟩
  | _ => rw [hm] at hs; exact absurd hs Bool.false_ne_true

/-- The window after a batch of fresh, accepted, pairwise distinct messages,
from any state whose buffer is within capacity. -/
theorem run_fresh (h : Host) (reqs : List Request) (s : State)
    (hlen : s.breachAttempts.length ≤ 50)
    (hauth : ∀ r ∈ reqs, tokenRejected h r.token = false)
    (hacc : ∀ r ∈ reqs, accepts r.body = true ∧ r.body.message.isString = true)
    (hid : ∀ r ∈ reqs, r.body.senderIdTyped = true)
    (hdist : (reqs.map (·.body.cleanContent)).Nodup)
    (hfresh : ∀ r ∈ reqs, r.body.cleanContent ∉ s.seenContent) :
    (run h s (reqs.map Event.webhook)).contents
        = ((reqs.map (·.body.cleanContent)).reverse ++ s.contents).take 50
    ∧ (run h s (reqs.map Event.webhook)).totalRawCount = s.totalRawCount + reqs.length := by
  induction reqs generalizing s with
  | nil =>
    refine ⟨?_, rfl⟩
    show s.contents = s.contents.take 50
    rw [List.take_of_length_le]
    simp only [State.contents, List.length_map]
    omega
  | cons r rs ih =>
    have hr := List.mem_cons_self r rs
    obtain ⟨m, hm, hclean⟩ := cleanContent_of_isString (hacc r hr).2
    have hnew : trim m ∉ s.seenContent := by rw [← hclean]; exact hfresh r hr
    obtain ⟨sender, hok⟩ := getHackerName_senderId_ok h (hid r hr)
    have hstep : step h s (.webhook r)
        = evict ⟨⟨sender, trim m, r.now⟩ :: s.breachAttempts, setAdd (trim m) s.seenContent,
            s.totalRawCount + 1, s.vaultStatus⟩ := by
      show (webhook h r s).1 = _
      rw [webhook_insert h r s (hauth r hr) (hacc r hr).1 hm hnew hok]
    have hlen1 : (State.mk (⟨sender, trim m, r.now⟩ :: s.breachAttempts)
        (setAdd (trim m) s.seenContent) (s.totalRawCount + 1) s.vaultStatus).breachAttempts.length
          ≤ 51 := by
      simp only [List.length_cons]; omega
    have hdist2 : r.body.cleanContent ∉ rs.map (·.body.cleanContent)
        ∧ (rs.map (·.body.cleanContent)).Nodup := List.nodup_cons.mp hdist
    obtain ⟨ih1, ih2⟩ := ih (step h s (.webhook r))
      (by rw [hstep]; exact evict_length _ hlen1)
      (fun x hx => hauth x (List.mem_cons_of_mem _ hx))
      (fun x hx => hacc x (List.mem_cons_of_mem _ hx))
      (fun x hx => hid x (List.mem_cons_of_mem _ hx))
      hdist2.2
      (by
        intro x hx hmem
        rw [hstep] at hmem
        rcases mem_setAdd.mp (evict_seen _ hmem) with hold | heq
        · exact hfresh x (List.mem_cons_of_mem _ hx) hold
        · apply hdist2.1
          rw [hclean, ← heq]
          exact List.mem_map_of_mem (fun y : Request => y.body.cleanContent) hx)
    constructor
    · show (run h (step h s (.webhook r)) (rs.map Event.webhook)).contents = _
      rw [ih1, hstep, evict_contents _ hlen1, contents_cons, take_append_take]
      simp only [List.map_cons, List.reverse_cons, List.append_assoc, List.singleton_append,
        hclean]
      rfl
    · show (run h (step h s (.webhook r)) (rs.map Event.webhook)).totalRawCount = _
      rw [ih2, hstep, evict_totalRawCount]
      simp only [List.length_cons]
      omega

/-- The rolling window on payloads whose `sender_id` is absent or a string. For
every sequence of such payloads that pass the token gate and the guard of line
89 with a string message, and whose trimmed messages are pairwise distinct,
ingesting them in order from start-up leaves in `breachAttempts` exactly the
last `min n 50` trimmed messages, newest first, with `totalRawCount = n` and
`unique_count = min n 50`. -/
theorem rolling_window (h : Host) (reqs : List Request)
    (hauth : ∀ r ∈ reqs, tokenRejected h r.token = false)
    (hacc : ∀ r ∈ reqs, accepts r.body = true ∧ r.body.message.isString = true)
    (hid : ∀ r ∈ reqs, r.body.senderIdTyped = true)
    (hdist : (reqs.map (·.body.cleanContent)).Nodup) :
    (run h State.init (reqs.map Event.webhook)).contents
        = ((reqs.map (·.body.cleanContent)).reverse).take 50
    ∧ (run h State.init (reqs.map Event.webhook)).totalRawCount = reqs.length
    ∧ (history (run h State.init (reqs.map Event.webhook))).count = reqs.length
    ∧ (history (run h State.init (reqs.map Event.webhook))).unique_count = min reqs.length 50 := by
  obtain ⟨h1, h2⟩ := run_fresh h reqs State.init (by simp [State.init]) hauth hacc hid hdist
    (fun r _ hmem => by simp [State.init] at hmem)
  have h1' : (run h State.init (reqs.map Event.webhook)).contents
      = ((reqs.map (·.body.cleanContent)).reverse).take 50 := by
    rw [h1]
    simp [State.contents, State.init]
  have h2' : (run h State.init (reqs.map Event.webhook)).totalRawCount = reqs.length := by
    rw [h2]
    simp [State.init]
  refine ⟨h1', h2', h2', ?_⟩
  have hlen := congrArg List.length h1'
  simp only [State.contents, List.length_map, List.length_take, List.length_reverse] at hlen
  show (run h State.init (reqs.map Event.webhook)).breachAttempts.length = _
  rw [hlen, Nat.min_comm]


/-- The rolling window at a concrete input: `M1`, ..., `M52` ingested in order
from start-up. The buffer is `M52`, ..., `M3`, `totalRawCount` is 52 and
`unique_count` is 50. -/
theorem rolling_window_witness :
    (run Host.bare State.init (fiftyTwoRequests.map Event.webhook)).contents
        = (List.range 50).map (fun i => utf16 ("M" ++ toString (52 - i)))
    ∧ (run Host.bare State.init (fiftyTwoRequests.map Event.webhook)).totalRawCount = 52
    ∧ (history (run Host.bare State.init (fiftyTwoRequests.map Event.webhook))).count = 52
    ∧ (history (run Host.bare State.init (fiftyTwoRequests.map Event.webhook))).unique_count
        = 50 := by
  have key := rolling_window Host.bare fiftyTwoRequests (fun _ _ => rfl) (by decide!)
    (by decide!) (by decide!)
  have hlen : fiftyTwoRequests.length = 52 := by decide!
  have hwin : ((fiftyTwoRequests.map (·.body.cleanContent)).reverse).take 50
      = (List.range 50).map (fun i => utf16 ("M" ++ toString (52 - i))) := by decide!
  rw [hlen, hwin] at key
  exact key


/-- C2, the code at the failing input. The single payload
`{"message": "hi", "sender_id": ["x"]}` passes the token gate and the guard of
line 89, its message is a non-empty string and the trimmed messages of the
sequence are trivially distinct, so the window should be `["hi"]` with
`unique_count = 1`. After the call `totalRawCount` is 1 but the buffer is empty
and `unique_count` is 0: `getHackerName` threw before the record was inserted. -/
theorem accepted_payload_not_recorded :
    tokenRejected Host.bare arraySenderRequest.token = false
    ∧ accepts arraySenderRequest.body = true
    ∧ arraySenderRequest.body.message.isString = true
    ∧ ([arraySenderRequest].map (·.body.cleanContent)).Nodup
    ∧ (([arraySenderRequest].map (·.body.cleanContent)).reverse).take 50 = [utf16 "hi"]
    ∧ (run Host.bare State.init ([arraySenderRequest].map Event.webhook)).contents = []
    ∧ (run Host.bare State.init ([arraySenderRequest].map Event.webhook)).totalRawCount = 1
    ∧ (history (run Host.bare State.init ([arraySenderRequest].map Event.webhook))).unique_count
        = 0
    ∧ min [arraySenderRequest].length 50 = 1 := by
  decide!

/-! ## Vault monitor: parsing -/

theorem utf16_0x : utf16 "0x" = [48, 120] := by decide!

theorem digitValue_hexChar : ∀ (d : Fin 16) (upper : Bool),
    digitValue (hexChar d upper) = some d.val := by decide!

theorem hexChar_not_space : ∀ (d : Fin 16) (upper : Bool),
    isStrWhiteSpace (hexChar d upper) = false := by decide!

theorem pushDigit_hexChar (a : Nat) (d : Fin 16) (upper : Bool) :
    pushDigit 16 (some a) (hexChar d upper) = some (a * 16 + d.val) := by
  unfold pushDigit
  rw [digitValue_hexChar]
  simp only [if_pos d.isLt]

theorem foldl_pushDigit_hex (ds : List (Fin 16 × Bool)) (a : Nat) :
    (ds.map (fun d => hexChar d.1 d.2)).foldl (pushDigit 16) (some a)
      = some (ds.foldl (fun acc d => acc * 16 + d.1.val) a) := by
  induction ds generalizing a with
  | nil => rfl
  | cons d ds ih =>
    simp only [List.map_cons, List.foldl_cons, pushDigit_hexChar]
    exact ih _

theorem parseDigits_hex (ds : List (Fin 16 × Bool)) (hne : ds ≠ []) :
    parseDigits 16 (ds.map (fun d => hexChar d.1 d.2)) = some (hexValue ds) := by
  unfold parseDigits
  cases ds with
  | nil => exact absurd rfl hne
  | cons d ds =>
    rw [if_neg (by simp)]
    exact foldl_pushDigit_hex (d :: ds) 0

/-- A string that neither starts nor ends with white space is its own trim. -/
theorem trim_eq_self (c : CodeUnit) (s : JSString) (hc : isStrWhiteSpace c = false)
    (hlast : ∀ x, (c :: s).getLast? = some x → isStrWhiteSpace x = false) :
    trim (c :: s) = c :: s := by
  unfold trim
  rw [List.dropWhile_cons_of_neg (by simp [hc])]
  cases hrev : (c :: s).reverse with
  | nil => simp at hrev
  | cons x t =>
    have hx : (c :: s).getLast? = some x := by
      rw [List.getLast?_eq_head?_reverse, hrev]; rfl
    rw [List.dropWhile_cons_of_neg (by simp [hlast x hx]), ← hrev, List.reverse_reverse]

theorem trim_hexString (ds : List (Fin 16 × Bool)) (hne : ds ≠ []) :
    trim (hexString ds) = hexString ds := by
  unfold hexString
  rw [utf16_0x]
  apply trim_eq_self _ _ (by decide)
  intro x hx
  have hlast : ([48, 120] ++ ds.map (fun d => hexChar d.1 d.2) : JSString).getLast?
      = (ds.map (fun d => hexChar d.1 d.2)).getLast? := by
    rw [List.getLast?_append]
    cases hl : (ds.map (fun d => hexChar d.1 d.2)).getLast? with
    | none =>
      rw [List.getLast?_eq_none_iff] at hl
      exact absurd (List.map_eq_nil_iff.mp hl) hne
    | some y => rfl
  replace hx : ([48, 120] ++ ds.map (fun d => hexChar d.1 d.2) : JSString).getLast? = some x := hx
  rw [hlast] at hx
  obtain ⟨d, -, rfl⟩ := List.mem_map.mp (List.mem_of_getLast?_eq_some hx)
  exact hexChar_not_space _ _

theorem stringToBigInt_hexString (ds : List (Fin 16 × Bool)) (hne : ds ≠ []) :
    stringToBigInt (hexString ds) = some (hexValue ds : Int) := by
  unfold stringToBigInt
  rw [trim_hexString ds hne]
  unfold hexString
  rw [utf16_0x]
  show (if (48 : CodeUnit).val = 48 ∧ ((120 : CodeUnit).val = 120 ∨ (120 : CodeUnit).val = 88)
      then (parseDigits 16 (ds.map (fun d => hexChar d.1 d.2))).map Int.ofNat else _) = _
  rw [if_pos (by decide), parseDigits_hex ds hne]
  rfl


/-! ## Vault monitor: the status written by one cycle -/

/-- Only an object has a `result`. -/
theorem truthy_of_result_str {data : JSVal} {r : JSString} (hres : data.result = .str r) :
    data.truthy = true := by
  cases data with
  | obj props => rfl
  | _ => exact absurd hres (fun hc => JSVal.noConfusion hc)

theorem statusAfter_replied (h : Host) (s : State) (data : JSVal) :
    statusAfter h (.replied data) s
      = match statusOfResponse h data with
        | .ok status => status
        | .error _ => .ERROR := by
  unfold statusAfter
  cases hst : statusOfResponse h data <;> simp [checkVaultBalance, hst]

theorem hexString_ne_0x (ds : List (Fin 16 × Bool)) (hne : ds ≠ []) :
    (JSVal.str (hexString ds)).strictEqStr (utf16 "0x") = false := by
  unfold JSVal.strictEqStr
  have hlen : hexString ds ≠ utf16 "0x" := by
    intro hc
    have := congrArg List.length hc
    rw [utf16_0x] at this
    cases ds with
    | nil => exact hne rfl
    | cons d ds => simp [hexString, utf16_0x] at this
  simpa using hlen

theorem statusOfResponse_hex (h : Host) (data : JSVal) (ds : List (Fin 16 × Bool))
    (hne : ds ≠ []) (hres : data.result = .str (hexString ds)) :
    statusOfResponse h data
      = .ok (if (hexValue ds : Int) = TARGET_BALANCE then .SECURE else .BROKEN) := by
  have hnonempty : (JSVal.str (hexString ds)).truthy = true := by
    simp [JSVal.truthy, hexString, utf16_0x]
  unfold statusOfResponse
  rw [truthy_of_result_str hres, hres, hnonempty, hexString_ne_0x ds hne]
  simp only [Bool.and_self, if_true, Bool.false_eq_true, if_false, toBigInt,
    stringToBigInt_hexString ds hne]

/-- C6. The status written by one cycle of `checkVaultBalance`, whatever the
state before it: a reply whose `result` is `"0x"` gives `BROKEN`; a reply whose
`result` is `0x` followed by hexadecimal digits (of either case, with any number
of leading zeros) that write exactly 500000000000000000000 gives `SECURE`; such a
reply writing any other integer gives `BROKEN`; a transport or timeout failure
gives `ERROR`; a reply without `result` gives `ERROR`. -/
theorem vault_status_table (h : Host) (s : State) :
    (∀ data, data.result = .str (utf16 "0x") → statusAfter h (.replied data) s = .BROKEN)
    ∧ (∀ data ds, ds ≠ [] → data.result = .str (hexString ds) →
        (hexValue ds : Int) = 500000000000000000000 →
        statusAfter h (.replied data) s = .SECURE)
    ∧ (∀ data ds, ds ≠ [] → data.result = .str (hexString ds) →
        (hexValue ds : Int) ≠ 500000000000000000000 →
        statusAfter h (.replied data) s = .BROKEN)
    ∧ statusAfter h .failed s = .ERROR
    ∧ (∀ data, data.result = .undefined → statusAfter h (.replied data) s = .ERROR) := by
  refine ⟨?_, ?_, ?_, rfl, ?_⟩
  · intro data hres
    rw [statusAfter_replied]
    unfold statusOfResponse
    rw [truthy_of_result_str hres, hres]
    have h1 : (JSVal.str (utf16 "0x")).truthy = true := by decide!
    have h2 : (JSVal.str (utf16 "0x")).strictEqStr (utf16 "0x") = true := by decide!
    simp only [h1, h2, Bool.and_self, if_true]
  · intro data ds hne hres hval
    rw [statusAfter_replied, statusOfResponse_hex h data ds hne hres]
    simp only [TARGET_BALANCE, hval, if_true]
  · intro data ds hne hres hval
    rw [statusAfter_replied, statusOfResponse_hex h data ds hne hres]
    simp only [TARGET_BALANCE, hval, if_false]
  · intro data hres
    rw [statusAfter_replied]
    unfold statusOfResponse
    rw [hres]
    simp [JSVal.truthy]

theorem rpcReplyData_result (result : JSVal) : (rpcReplyData result).result = result := by
  simp [rpcReplyData, JSVal.result, lookupProp]

theorem rpcErrorData_result : rpcErrorData.result = .undefined := by
  have h1 : (utf16 "error" == utf16 "result") = false := by decide!
  have h2 : (utf16 "id" == utf16 "result") = false := by decide!
  have h3 : (utf16 "jsonrpc" == utf16 "result") = false := by decide!
  simp [rpcErrorData, JSVal.result, lookupProp, List.find?, h1, h2, h3]

/-- C6, at concrete inputs, from a state whose status is `LOADING`: the replies
with `result` equal to `"0x"`, to the 32-byte word of the target balance, to the
word `0x01`, a transport failure, and a JSON-RPC error reply. -/
theorem vault_status_table_witness :
    statusAfter Host.bare (rpcReply (.str (utf16 "0x"))) State.init = .BROKEN
    ∧ hexString targetDigits
        = utf16 "0x00000000000000000000000000000000000000000000001b1ae4d6e2ef500000"
    ∧ statusAfter Host.bare (rpcReply (.str (hexString targetDigits))) State.init = .SECURE
    ∧ statusAfter Host.bare (rpcReply (.str (hexString [(0, false), (1, false)]))) State.init
        = .BROKEN
    ∧ statusAfter Host.bare .failed State.init = .ERROR
    ∧ statusAfter Host.bare rpcErrorReply State.init = .ERROR :=
  have table := vault_status_table Host.bare State.init
  ⟨table.1 _ (rpcReplyData_result _), by decide!,
    table.2.1 _ targetDigits (by decide) (rpcReplyData_result _) (by decide!),
    table.2.2.1 _ [(0, false), (1, false)] (by decide) (rpcReplyData_result _) (by decide!),
    table.2.2.2.1, table.2.2.2.2 _ rpcErrorData_result⟩

/-- C7, the code at the failing inputs. From start-up, where the status is
`LOADING`, a reply whose `result` is the empty string and a reply whose `result`
is `"0xzz"` both leave the status `ERROR`: it is neither `BROKEN` nor the
status before the cycle. -/
theorem empty_or_unparseable_result_not_broken :
    State.init.vaultStatus = .LOADING
    ∧ statusAfter Host.bare (rpcReply (.str (utf16 ""))) State.init = .ERROR
    ∧ statusAfter Host.bare (rpcReply (.str (utf16 ""))) State.init ≠ .BROKEN
    ∧ statusAfter Host.bare (rpcReply (.str (utf16 "0xzz"))) State.init = .ERROR
    ∧ statusAfter Host.bare (rpcReply (.str (utf16 "0xzz"))) State.init ≠ .BROKEN := by
  decide!

/-- What the code does on such results in general: whatever the state before, a
reply whose `result` is the empty string, or a string other than `"0x"` that
`BigInt` cannot parse, makes the cycle write `ERROR`. -/
theorem unparseable_result_sets_error (h : Host) (s : State) (data : JSVal) (r : JSString)
    (hres : data.result = .str r)
    (hbad : r = [] ∨ (r ≠ utf16 "0x" ∧ stringToBigInt r = none)) :
    statusAfter h (.replied data) s = .ERROR := by
  rw [statusAfter_replied]
  unfold statusOfResponse
  rw [truthy_of_result_str hres, hres]
  rcases hbad with rfl | ⟨hne, hparse⟩
  · rfl
  · have hneq : (JSVal.str r).strictEqStr (utf16 "0x") = false := by
      simpa [JSVal.strictEqStr] using hne
    cases ht : (JSVal.str r).truthy with
    | false => simp
    | true =>
      simp only [Bool.and_self, if_true, hneq, Bool.false_eq_true, if_false, toBigInt, hparse]

/-- The same at a concrete input: the reply whose `result` is `"0xzz"`, from
start-up. -/
theorem unparseable_result_sets_error_witness :
    stringToBigInt (utf16 "0xzz") = none
    ∧ statusAfter Host.bare (rpcReply (.str (utf16 "0xzz"))) State.init = .ERROR :=
  ⟨by decide!,
    unparseable_result_sets_error Host.bare State.init _ (utf16 "0xzz") (rpcReplyData_result _)
      (Or.inr ⟨by decide!, by decide!⟩)⟩


/-! ## Buffer: what holds of the correspondence -/

/-- On every run from start-up the contents of the buffer are pairwise distinct
and each of them is in the set; when moreover every webhook payload of the run
has a `sender_id` that is absent or a string, the set holds nothing else. -/
theorem correspondence_on_typed_runs (h : Host) (events : List Event) :
    (run h State.init events).contents.Nodup
    ∧ (∀ c ∈ (run h State.init events).contents, c ∈ (run h State.init events).seenContent)
    ∧ ((∀ req, Event.webhook req ∈ events → req.body.senderIdTyped = true) →
        ∀ c, c ∈ (run h State.init events).seenContent
          ↔ c ∈ (run h State.init events).contents) := by
  have inv := bufferInv_run bufferInv_init h events
  refine ⟨inv.nodup, inv.sub, fun hid c => ⟨?_, inv.sub c⟩⟩
  exact seenCovered_run h events (s := State.init) (fun c hc => by simp [State.init] at hc) hid c

end VaultServer
